import Mathlib

/-!
Verification of the request-construction pipeline of the tsfetch ApiClient
(src/api.ts stateful client). The embedding translates the TypeScript class
ApiClient into Lean: JavaScript runtime values become the inductive JVal,
the options bag becomes the structure RequestOptions, the middleware loop
becomes a fold in the Except monad, and the network transport becomes an
oracle function from the prepared fetch call to a response record. Numbers
are restricted to integers (the client never computes with fractions) and
URLSearchParams is modelled by its list of appended key-value pairs, joined
with ampersands (percent-encoding of the platform collaborator is outside
the pipeline being verified, as is the browser download helper).
-/

mutual

/-- Model of a JavaScript runtime value as the client sees one: the scalar
primitives, arrays, plain objects given as ordered field lists, plus the two
opaque platform containers the dispatcher recognises by identity, FormData
and Blob. Mutual inductives (rather than a nested List) keep every recursion
below structural, so closed terms reduce by rfl. -/
inductive JVal where
  | null
  | undef
  | bool (b : Bool)
  | num (n : Int)
  | str (s : String)
  | arr (elems : JVals)
  | obj (fields : JFields)
  | formData
  | blob

/-- A JavaScript array payload, as an ordered list of values. -/
inductive JVals where
  | nil
  | cons (v : JVal) (rest : JVals)

/-- The ordered own enumerable fields of a plain JavaScript object. -/
inductive JFields where
  | nil
  | cons (key : String) (v : JVal) (rest : JFields)

end

/-- Converts a Lean list of values into a JVals array payload. -/
def listToJVals : List JVal → JVals
  | [] => .nil
  | v :: rest => .cons v (listToJVals rest)

/-- Converts a Lean association list into object fields. -/
def listToJFields : List (String × JVal) → JFields
  | [] => .nil
  | (k, v) :: rest => .cons k v (listToJFields rest)

/-- Array literal helper: the JVal for a JavaScript array. -/
def JVal.jarr (xs : List JVal) : JVal := .arr (listToJVals xs)

/-- Object literal helper: the JVal for a plain JavaScript object. -/
def JVal.jobj (fs : List (String × JVal)) : JVal := .obj (listToJFields fs)

/-- JavaScript truthiness of a value, as tested by the if statements of the
client (if this token, if body, and the or-chain picking the URL). -/
def jvalTruthy : JVal → Bool
  | .null => false
  | .undef => false
  | .bool b => b
  | .num n => n != 0
  | .str s => s != ""
  | .arr _ => true
  | .obj _ => true
  | .formData => true
  | .blob => true

/-- Whether a typeof test on the value yields the string object. null, plain
objects, arrays, FormData and Blob all do. -/
def jvalTypeofObject : JVal → Bool
  | .null => true
  | .arr _ => true
  | .obj _ => true
  | .formData => true
  | .blob => true
  | _ => false

mutual

/-- Default string conversion of a value, JavaScript String(v): arrays join
their elements with commas (null and undefined elements become empty), and
plain objects render as the object Object tag. -/
def jsToString : JVal → String
  | .null => "null"
  | .undef => "undefined"
  | .bool b => cond b "true" "false"
  | .num n => toString n
  | .str s => s
  | .arr xs => jsToStringElems xs
  | .obj _ => "[object Object]"
  | .formData => "[object FormData]"
  | .blob => "[object Blob]"

/-- Array.prototype.toString: the comma-join of the default conversions of
the elements, where a null or undefined element contributes nothing. -/
def jsToStringElems : JVals → String
  | .nil => ""
  | .cons v rest =>
      (match v with
        | .null => ""
        | .undef => ""
        | w => jsToString w) ++
      (match rest with
        | .nil => ""
        | r => "," ++ jsToStringElems r)

end

/-- One character of a JSON string literal, escaped as JSON.stringify
escapes it (the quote, the backslash and the common control characters). -/
def jsonEscapeChar (c : Char) : String :=
  if c = '"' then "\\\""
  else if c = '\\' then "\\\\"
  else if c = '\n' then "\\n"
  else if c = '\t' then "\\t"
  else if c = '\r' then "\\r"
  else String.singleton c

/-- A JSON string literal: the escaped characters between double quotes. -/
def jsonQuote (s : String) : String :=
  "\"" ++ String.join (s.data.map jsonEscapeChar) ++ "\""

mutual

/-- JSON.stringify of a value. Undefined only occurs inside containers in
the client, where array slots render as null and object fields are skipped;
the opaque containers FormData and Blob have no own enumerable fields, so
they render as the empty object. -/
def jsonStringify : JVal → String
  | .null => "null"
  | .undef => "null"
  | .bool b => cond b "true" "false"
  | .num n => toString n
  | .str s => jsonQuote s
  | .arr xs => "[" ++ String.intercalate "," (jsonStringifyElems xs) ++ "]"
  | .obj fs => "\x7b" ++ String.intercalate "," (jsonStringifyFields fs) ++ "\x7d"
  | .formData => "\x7b\x7d"
  | .blob => "\x7b\x7d"

/-- The rendered elements of a JSON array; an undefined slot becomes null. -/
def jsonStringifyElems : JVals → List String
  | .nil => []
  | .cons v rest =>
      (match v with
        | .undef => "null"
        | w => jsonStringify w) :: jsonStringifyElems rest

/-- The rendered fields of a JSON object; undefined-valued fields are
dropped, as JSON.stringify drops them. -/
def jsonStringifyFields : JFields → List String
  | .nil => []
  | .cons k v rest =>
      match v with
      | .undef => jsonStringifyFields rest
      | w => (jsonQuote k ++ ":" ++ jsonStringify w) :: jsonStringifyFields rest

end

/-- The left brace character, kept as a named constant. -/
def lbraceChar : Char := Char.ofNat 123

/-- The right brace character, kept as a named constant. -/
def rbraceChar : Char := Char.ofNat 125

/-- JSON insignificant whitespace at the head of the input is dropped. -/
def skipWs : List Char → List Char
  | c :: rest =>
      if c = ' ' || c = '\t' || c = '\n' || c = '\r' then skipWs rest
      else c :: rest
  | [] => []

/-- Parses the remainder of a JSON string literal, after its opening quote:
the decoded content plus the input after the closing quote. The common
escapes are decoded; an unknown escape or an unterminated literal fails. -/
def parseStringChars (cs : List Char) : Option (String × List Char) :=
  match cs with
  | [] => none
  | c :: rest =>
      if c = '"' then some ("", rest)
      else if c = '\\' then
        match rest with
        | [] => none
        | e :: rest2 =>
            let dec : Option Char :=
              if e = '"' then some '"'
              else if e = '\\' then some '\\'
              else if e = '/' then some '/'
              else if e = 'n' then some '\n'
              else if e = 't' then some '\t'
              else if e = 'r' then some '\r'
              else none
            match dec with
            | some d =>
                (parseStringChars rest2).map (fun p => (String.singleton d ++ p.1, p.2))
            | none => none
      else (parseStringChars rest).map (fun p => (String.singleton c ++ p.1, p.2))

/-- Splits the longest run of decimal digits off the front of the input. -/
def takeDigits : List Char → List Char × List Char
  | c :: rest =>
      if c.isDigit then
        let p := takeDigits rest
        (c :: p.1, p.2)
      else ([], c :: rest)
  | [] => ([], [])

/-- The natural number a run of decimal digits denotes. -/
def digitsToNat (ds : List Char) : Nat :=
  ds.foldl (fun a c => a * 10 + (c.toNat - 48)) 0

/-- Parses a JSON integer numeral (an optional minus sign and digits). The
embedding restricts JSON numbers to integers: a fractional or exponent part
makes the parse fail rather than silently mis-read, and the client itself
never produces one. -/
def parseIntNumeral (cs : List Char) : Option (JVal × List Char) :=
  let (neg, cs2) :=
    match cs with
    | c :: rest => if c = '-' then (true, rest) else (false, cs)
    | [] => (false, cs)
  let p := takeDigits cs2
  match p.1 with
  | [] => none
  | _ =>
      match p.2 with
      | c :: _ =>
          if c = '.' || c = 'e' || c = 'E' then none
          else some (.num (if neg then -(digitsToNat p.1 : Int) else (digitsToNat p.1 : Int)), p.2)
      | [] => some (.num (if neg then -(digitsToNat p.1 : Int) else (digitsToNat p.1 : Int)), p.2)

mutual

/-- Parses one JSON value from the input, fuelled: JSON.parse over the model
values. The fuel only bounds nesting of the recursive grammar; parseJson
supplies more fuel than any input can consume. -/
def parseValue : Nat → List Char → Option (JVal × List Char)
  | 0, _ => none
  | fuel + 1, cs =>
      match skipWs cs with
      | [] => none
      | c :: rest =>
          if c = '"' then (parseStringChars rest).map (fun p => (JVal.str p.1, p.2))
          else if c = lbraceChar then parseObjectBody fuel (skipWs rest) true
          else if c = '[' then parseArrayBody fuel (skipWs rest) true
          else if c = 'n' then
            match rest with
            | 'u' :: 'l' :: 'l' :: r => some (.null, r)
            | _ => none
          else if c = 't' then
            match rest with
            | 'r' :: 'u' :: 'e' :: r => some (.bool true, r)
            | _ => none
          else if c = 'f' then
            match rest with
            | 'a' :: 'l' :: 's' :: 'e' :: r => some (.bool false, r)
            | _ => none
          else if c = '-' || c.isDigit then parseIntNumeral (c :: rest)
          else none

/-- Parses the members of a JSON object after its opening brace (first is
true until a member has been read), returning the field list and the input
after the closing brace. Duplicate keys are kept in order; lookups take the
last one, matching how parsing into a JavaScript object keeps the last. -/
def parseObjectBody : Nat → List Char → Bool → Option (JVal × List Char)
  | 0, _, _ => none
  | fuel + 1, cs, first =>
      match cs with
      | [] => none
      | c :: rest =>
          if c = rbraceChar && first then some (.obj .nil, rest)
          else if c = '"' then
            match parseStringChars rest with
            | none => none
            | some (key, afterKey) =>
                match skipWs afterKey with
                | ':' :: afterColon =>
                    match parseValue fuel afterColon with
                    | none => none
                    | some (v, afterVal) =>
                        match skipWs afterVal with
                        | ',' :: afterComma =>
                            match parseObjectBody fuel (skipWs afterComma) false with
                            | some (.obj fs, r) => some (.obj (.cons key v fs), r)
                            | _ => none
                        | d :: afterBrace =>
                            if d = rbraceChar then
                              some (.obj (.cons key v .nil), afterBrace)
                            else none
                        | [] => none
                | _ => none
          else none

/-- Parses the elements of a JSON array after its opening bracket, returning
the element list and the input after the closing bracket. -/
def parseArrayBody : Nat → List Char → Bool → Option (JVal × List Char)
  | 0, _, _ => none
  | fuel + 1, cs, first =>
      match cs with
      | [] => none
      | c :: rest =>
          if c = ']' && first then some (.arr .nil, rest)
          else
            match parseValue fuel cs with
            | none => none
            | some (v, afterVal) =>
                match skipWs afterVal with
                | ',' :: afterComma =>
                    match parseArrayBody fuel (skipWs afterComma) false with
                    | some (.arr vs, r) => some (.arr (.cons v vs), r)
                    | _ => none
                | ']' :: afterBracket => some (.arr (.cons v .nil), afterBracket)
                | _ => none

end

/-- JSON.parse: the whole input must be one JSON value surrounded only by
whitespace; anything else fails (the SyntaxError of the platform parser). -/
def parseJson (s : String) : Option JVal :=
  match parseValue (s.data.length + 1) s.data with
  | some (v, rest) =>
      match skipWs rest with
      | [] => some v
      | _ => none
  | none => none

/-- Reading a field of a parsed object: JavaScript keeps the last value
written under a repeated key, so the last matching field wins. -/
def lookupFieldLast (fs : JFields) (k : String) : Option JVal :=
  match fs with
  | .nil => none
  | .cons k2 v rest =>
      match lookupFieldLast rest k with
      | some r => some r
      | none => if k2 == k then some v else none

/-- The options bag of a request (the TypeScript RequestOptions). Optional
fields are Option so that an absent property (undefined) is none; the
transport fields other than method are carried opaquely in extra, exactly as
the rest spread of the dispatcher carries them. -/
structure RequestOptions where
  params : Option (List String) := none
  query : Option (List (String × JVal)) := none
  body : Option JVal := none
  headers : Option (List (String × String)) := none
  expectResponse : Option Bool := none
  url : Option String := none
  method : Option String := none
  extra : List (String × JVal) := []

/-- A middleware: from options to options, with a thrown error or rejected
promise modelled as the error of the Except monad. -/
def ApiMiddleware : Type := RequestOptions → Except String RequestOptions

/-- The mutable state of an ApiClient instance: base URL, token and the
ordered middleware list. -/
structure ApiClient where
  baseUrl : String
  token : Option String
  middlewares : List ApiMiddleware

/-- Whether the last character of the string is the given one; this embeds
the endsWith test of the constructor for its one-character separator. -/
def lastCharIs (s : String) (c : Char) : Bool :=
  match s.data.reverse with
  | d :: _ => d == c
  | [] => false

/-- The constructor normalisation: append a trailing separator when the last
character is not already one. -/
def normalizeBaseUrl (baseUrl : String) : String :=
  if lastCharIs baseUrl '/' then baseUrl else baseUrl ++ "/"

/-- The ApiClient constructor: normalises the base URL; the token defaults
to null, and an empty provided token also becomes null (token or-null). -/
def ApiClient.create (baseUrl : String) (token : Option String) : ApiClient :=
  { baseUrl := normalizeBaseUrl baseUrl
    token := match token with
      | some t => if t == "" then none else some t
      | none => none
    middlewares := [] }

/-- setToken: replaces the stored token verbatim. -/
def ApiClient.setToken (st : ApiClient) (token : String) : ApiClient :=
  { st with token := some token }

/-- setBaseUrl: replaces the base URL, normalised like the constructor. -/
def ApiClient.setBaseUrl (st : ApiClient) (baseUrl : String) : ApiClient :=
  { st with baseUrl := normalizeBaseUrl baseUrl }

/-- use: appends a middleware at the end of the registration list. -/
def ApiClient.use (st : ApiClient) (middleware : ApiMiddleware) : ApiClient :=
  { st with middlewares := st.middlewares ++ [middleware] }

/-- Whether the stored token is truthy (a non-null, non-empty string), the
test guarding the Authorization default header. -/
def tokenTruthy (st : ApiClient) : Bool :=
  match st.token with
  | some t => t != ""
  | none => false

/-- serializeQueryParam: a truthy value of object type is JSON-stringified
(this includes arrays and the opaque containers, since typeof gives object
for them); every other value gets default string conversion. -/
def ApiClient.serializeQueryParam (key : String) (value : JVal) : String × String :=
  if jvalTruthy value && jvalTypeofObject value then (key, jsonStringify value)
  else (key, jsToString value)

/-- The key-value pairs a nested (plain object) query value appends: one
bracketed pair per nested field, skipping null and undefined nested values,
each serialized with default string conversion. -/
def nestedQueryPairs (key : String) (fs : JFields) : List (String × String) :=
  match fs with
  | .nil => []
  | .cons nk nv rest =>
      match nv with
      | .undef => nestedQueryPairs key rest
      | .null => nestedQueryPairs key rest
      | w => (key ++ "[" ++ nk ++ "]", jsToString w) :: nestedQueryPairs key rest

/-- The key-value pairs an array query value appends: one bracketed pair per
element in order, each element put through serializeQueryParam. -/
def arrayQueryPairs (key : String) (items : JVals) : List (String × String) :=
  match items with
  | .nil => []
  | .cons item rest =>
      ((ApiClient.serializeQueryParam key item).1 ++ "[]",
        (ApiClient.serializeQueryParam key item).2) :: arrayQueryPairs key rest

/-- The pairs one query entry appends to the search parameters: null and
undefined are skipped, a non-array object expands to nested pairs, an array
expands element-wise, anything else goes through serializeQueryParam. -/
def queryEntryPairs (key : String) (value : JVal) : List (String × String) :=
  match value with
  | .undef => []
  | .null => []
  | .obj fs => nestedQueryPairs key fs
  | .formData => []
  | .blob => []
  | .arr items => arrayQueryPairs key items
  | v => [ApiClient.serializeQueryParam key v]

/-- All pairs the query map appends, in iteration order of the entries. -/
def queryPairs : List (String × JVal) → List (String × String)
  | [] => []
  | (k, v) :: rest => queryEntryPairs k v ++ queryPairs rest

/-- Drops one leading separator from the path, as the dispatcher does before
gluing the path onto the base URL that already ends with a separator. -/
def stripLeadingSlash (path : String) : String :=
  match path.data with
  | c :: rest => if c = '/' then String.mk rest else path
  | [] => path

/-- buildUrl: base plus cleaned path, then one separator-prefixed segment
per path parameter, then the query string after a question mark when at
least one pair was produced. -/
def ApiClient.buildUrl (st : ApiClient) (path : String) (params : List String)
    (query : List (String × JVal)) : String :=
  let cleanPath := stripLeadingSlash path
  let fullPath := st.baseUrl ++ cleanPath
  let fullPath := params.foldl (fun fp p => fp ++ "/" ++ p) fullPath
  let queryString :=
    String.intercalate "&" ((queryPairs query).map (fun kv => kv.1 ++ "=" ++ kv.2))
  if queryString != "" then fullPath ++ "?" ++ queryString else fullPath

/-- applyMiddlewares: the sequential awaited loop over the middleware list,
threading the options value; a thrown error short-circuits. -/
def ApiClient.applyMiddlewares (middlewares : List ApiMiddleware)
    (options : RequestOptions) : Except String RequestOptions :=
  match middlewares with
  | [] => .ok options
  | m :: rest =>
      match m options with
      | .error e => .error e
      | .ok next => ApiClient.applyMiddlewares rest next

/-- Writes one property into an object modelled as an association list: an
existing key keeps its position and takes the new value, a new key goes to
the end. This is the effect of one property in an object spread. -/
def upsert (l : List (String × α)) (kv : String × α) : List (String × α) :=
  if l.any (fun p => p.1 == kv.1) then
    l.map (fun p => if p.1 == kv.1 then (p.1, kv.2) else p)
  else l ++ [kv]

/-- Object spread of b over a: the properties of b override same-named
properties of a in place and append otherwise. -/
def objSpread (a b : List (String × α)) : List (String × α) :=
  b.foldl upsert a

/-- Object property read: the value under the key, if present. -/
def headerGet (l : List (String × String)) (k : String) : Option String :=
  (l.find? (fun p => p.1 == k)).map (fun p => p.2)

/-- Truthiness of an optional JavaScript value (undefined is falsy). -/
def jvalTruthyOpt : Option JVal → Bool
  | some v => jvalTruthy v
  | none => false

/-- Truthiness of an optional string (undefined and the empty string are
falsy), the test of the or-chain resolving the URL. -/
def strTruthyOpt : Option String → Bool
  | some s => s != ""
  | none => false

/-- The in-flight options assembled before middleware runs: the rest of the
transport options, headers as defaults overridden by caller headers, params,
query and expectResponse attached, and the body attached only when truthy
(the if-body guard of the dispatcher). The url property was destructured
away and is not part of the assembled object. -/
def assembleOptions (st : ApiClient) (options : RequestOptions) : RequestOptions :=
  let headers := options.headers.getD []
  let defaultHeaders :=
    [("Content-Type", "application/json")] ++
      (if tokenTruthy st then [("Authorization", st.token.getD "")] else [])
  let base : RequestOptions :=
    { method := options.method
      extra := options.extra
      headers := some (objSpread defaultHeaders headers)
      params := some (options.params.getD [])
      query := some (options.query.getD [])
      expectResponse := some (options.expectResponse.getD true)
      url := none
      body := none }
  if jvalTruthyOpt options.body then { base with body := options.body } else base

/-- The final body encoding: a string or FormData payload passes through
unmodified, any other value is JSON-encoded to a string. -/
def encodeBody (b : JVal) : JVal :=
  match b with
  | .str s => .str s
  | .formData => .formData
  | v => .str (jsonStringify v)

/-- One prepared network call: the resolved URL and the final transport
options handed to the platform fetch. -/
structure FetchCall where
  url : String
  method : Option String
  headers : List (String × String)
  body : Option JVal
  extra : List (String × JVal)

/-- From the post-middleware options to the network call: the URL is the
truthy-or chain of post-middleware url, pre-middleware url and the built
URL; the final options are the remaining transport options with the
processed headers, and the body is encoded only when defined. Also returns
the post-middleware expectResponse. -/
def finalizeRequest (st : ApiClient) (path : String) (customUrl : Option String)
    (processed : RequestOptions) : FetchCall × Bool :=
  let url :=
    if strTruthyOpt processed.url then processed.url.getD ""
    else if strTruthyOpt customUrl then customUrl.getD ""
    else ApiClient.buildUrl st path (processed.params.getD []) (processed.query.getD [])
  ({ url := url
     method := processed.method
     headers := processed.headers.getD []
     body := processed.body.map encodeBody
     extra := processed.extra },
   processed.expectResponse.getD true)

/-- Everything the dispatcher does before the network call: assemble the
in-flight options, run the middleware pipeline over them (an error here
propagates and no call is made), and finalize the call. -/
def prepareRequest (st : ApiClient) (path : String) (options : RequestOptions) :
    Except String (FetchCall × Bool) :=
  match ApiClient.applyMiddlewares st.middlewares (assembleOptions st options) with
  | .error e => .error e
  | .ok processed => .ok (finalizeRequest st path options.url processed)

/-- A network response as the dispatcher observes one: the status code, the
content-type header and the body text (the blob payload stays opaque). -/
structure Response where
  status : Nat
  contentType : Option String
  bodyText : String

/-- Response.ok of the platform: status in the 2xx range. -/
def respOk (r : Response) : Bool :=
  200 ≤ r.status && r.status ≤ 299

/-- What a dispatch produces for its caller: a decoded value, an error
raised with a message, a host TypeError from reading a property of a
non-object, a propagated JSON SyntaxError from the declared-JSON branch, or
a middleware error raised before any network call. -/
inductive FetchResult where
  | value (v : JVal)
  | errorMsg (msg : String)
  | typeError
  | jsonParseFailure
  | middlewareError (msg : String)

/-- The body-reading operations a dispatch performs on the response. -/
inductive ReadOp where
  | text
  | blob
deriving DecidableEq

/-- Whether the first list is a prefix of the second. -/
def charsPrefix : List Char → List Char → Bool
  | [], _ => true
  | _ :: _, [] => false
  | c :: cs, d :: ds => c == d && charsPrefix cs ds

/-- Whether the needle occurs inside the haystack, the includes test of
JavaScript strings (an empty needle is always found). -/
def charsIncludes (needle hay : List Char) : Bool :=
  if charsPrefix needle hay then true
  else
    match hay with
    | [] => false
    | _ :: rest => charsIncludes needle rest

/-- A whitespace character as String.prototype.trim sees one (the ASCII
ones; the client only meets ASCII whitespace). -/
def isJsWs (c : Char) : Bool :=
  c = ' ' || c = '\t' || c = '\n' || c = '\r'

/-- String.prototype.trim: whitespace dropped from both ends. -/
def jsTrim (s : String) : String :=
  String.mk (((s.data.dropWhile isJsWs).reverse.dropWhile isJsWs).reverse)

/-- The generic status-coded error message. -/
def httpErrorMsg (status : Nat) : String :=
  "HTTP error! status: " ++ toString status

/-- Reading the message property of the parsed error body: on null (or
undefined) the host raises a TypeError; on a plain object it is the field
read with last-key-wins; on any other value it is undefined. -/
def readMessage (j : JVal) : Except Unit (Option JVal) :=
  match j with
  | .null => .error ()
  | .undef => .error ()
  | .obj fs => .ok (lookupFieldLast fs "message")
  | _ => .ok none

/-- The error a failing (non-2xx) status produces when a response is
expected: a non-blank body is JSON-parsed and a truthy message field gives
the error text; a parse failure (SyntaxError), a blank body or a missing or
falsy message field give the generic status-coded message; a body parsing
to a non-object is read for a message property, which on JSON null raises
the TypeError that the catch re-throws unchanged. -/
def failureResult (status : Nat) (text : String) : FetchResult :=
  if text != "" && jsTrim text != "" then
    match parseJson text with
    | none => .errorMsg (httpErrorMsg status)
    | some j =>
        match readMessage j with
        | .error _ => .typeError
        | .ok none => .errorMsg (httpErrorMsg status)
        | .ok (some v) =>
            if jvalTruthy v then .errorMsg (jsToString v)
            else .errorMsg (httpErrorMsg status)
  else .errorMsg (httpErrorMsg status)

/-- Whether the declared content type contains the given fragment; an
absent header makes every such test false (optional chaining). -/
def ctIncludes (ct : Option String) (fragment : String) : Bool :=
  match ct with
  | some s => charsIncludes fragment.data s.data
  | none => false

/-- The response normalizer: the decision sequence the dispatcher runs on
the raw response, together with the body reads it performs. -/
def handleResponse (expectResponse : Bool) (r : Response) : FetchResult × List ReadOp :=
  if !expectResponse then
    if !respOk r then (.errorMsg (httpErrorMsg r.status), [])
    else (.value .null, [])
  else if !respOk r then
    (failureResult r.status r.bodyText, [.text])
  else if r.status == 204 then (.value .null, [])
  else if ctIncludes r.contentType "application/octet-stream"
      || ctIncludes r.contentType "application/pdf"
      || ctIncludes r.contentType "image/" then
    (.value .blob, [.blob])
  else if ctIncludes r.contentType "application/json" then
    if jsTrim r.bodyText == "" then (.value .null, [.text])
    else
      match parseJson r.bodyText with
      | some j => (.value j, [.text])
      | none => (.jsonParseFailure, [.text])
  else if ctIncludes r.contentType "text/" then
    (.value (.str r.bodyText), [.text])
  else
    if jsTrim r.bodyText == "" then (.value .null, [.text])
    else
      match parseJson r.bodyText with
      | some j => (.value j, [.text])
      | none => (.value .null, [.text])

/-- The observable outcome of one dispatch: the network calls performed (the
code performs exactly one unless middleware fails first), the body reads,
and the result or error. -/
structure DispatchOutcome where
  calls : List FetchCall
  reads : List ReadOp
  result : FetchResult

/-- customFetch: prepare the request (middleware failures propagate with no
network call), perform the single network call through the transport oracle,
and normalize the response. -/
def ApiClient.customFetch (st : ApiClient) (path : String) (options : RequestOptions)
    (net : FetchCall → Response) : DispatchOutcome :=
  match prepareRequest st path options with
  | .error e => { calls := [], reads := [], result := .middlewareError e }
  | .ok (call, expectResp) =>
      let resp := net call
      let rr := handleResponse expectResp resp
      { calls := [call], reads := rr.2, result := rr.1 }

/-- Overrides the base options with the present fields of the caller
options, the object spread of the verb methods (caller options are spread
last and win property-wise). -/
def spreadOptions (base override : RequestOptions) : RequestOptions :=
  { params := match override.params with | some x => some x | none => base.params
    query := match override.query with | some x => some x | none => base.query
    body := match override.body with | some x => some x | none => base.body
    headers := match override.headers with | some x => some x | none => base.headers
    expectResponse := match override.expectResponse with
      | some x => some x
      | none => base.expectResponse
    url := match override.url with | some x => some x | none => base.url
    method := match override.method with | some x => some x | none => base.method
    extra := objSpread base.extra override.extra }

/-- The post verb: method POST plus the named arguments, with the caller
options spread over them, delegated to customFetch. Query defaults to the
empty map and expectResponse to true, as in the destructuring defaults. -/
def ApiClient.post (st : ApiClient) (path : String) (params : Option (List String))
    (body : Option JVal) (query : List (String × JVal)) (options : RequestOptions)
    (expectResponse : Bool) (net : FetchCall → Response) : DispatchOutcome :=
  ApiClient.customFetch st path
    (spreadOptions
      { method := some "POST"
        params := params
        query := some query
        body := body
        expectResponse := some expectResponse }
      options)
    net

/-- The middleware loop under concurrent registration. The for-of loop of
applyMiddlewares iterates the live array through its iterator: the state is
the not-yet-visited part of the array, and middlewares pushed during the
await of a stage land at the end of the array, hence at the end of the
remaining part. The schedule lists, per executed stage, the middlewares some
other task registers through use during that await. -/
def runLiveMiddlewares (remaining : List ApiMiddleware)
    (sched : List (List ApiMiddleware)) (options : RequestOptions) :
    Except String RequestOptions :=
  match remaining with
  | [] => .ok options
  | m :: rest =>
      match m options with
      | .error e => .error e
      | .ok next => runLiveMiddlewares (rest ++ sched.headD []) sched.tail next
termination_by remaining.length + (sched.map List.length).sum
decreasing_by
  cases sched <;> simp_arith [List.headD, List.tail]

/-- The middleware sequence the live loop actually executes: the array as it
was at dispatch start, interleaved with the scheduled appends as the
iterator reaches them. -/
def effectiveMiddlewares (remaining : List ApiMiddleware)
    (sched : List (List ApiMiddleware)) : List ApiMiddleware :=
  match remaining with
  | [] => []
  | m :: rest => m :: effectiveMiddlewares (rest ++ sched.headD []) sched.tail
termination_by remaining.length + (sched.map List.length).sum
decreasing_by
  cases sched <;> simp_arith [List.headD, List.tail]

/-- The client of the end-to-end scenario: base https://api.test, token
abc, no middleware registered. -/
def clientC1 : ApiClient := ApiClient.create "https://api.test" (some "abc")

/-- The body of the end-to-end scenario, the object with name x. -/
def bodyC1 : JVal := JVal.jobj [("name", .str "x")]

/-- The network call the end-to-end scenario must produce. -/
def expectedCallC1 : FetchCall :=
  { url := "https://api.test/users"
    method := some "POST"
    headers := [("Content-Type", "application/json"), ("Authorization", "abc")]
    body := some (.str "\x7b\"name\":\"x\"\x7d")
    extra := [] }

/-- C1: a client with base https://api.test and token abc and no middleware,
posting to path users with body the object name-x, performs exactly one
network call, whose URL is https://api.test/users, whose method is POST,
whose headers map Authorization to abc and Content-Type to
application/json, and whose body is the JSON text of the object. -/
theorem post_end_to_end (net : FetchCall → Response) :
    (ApiClient.post clientC1 "users" none (some bodyC1) [] {} true net).calls =
      [expectedCallC1] ∧
    expectedCallC1.url = "https://api.test/users" ∧
    expectedCallC1.method = some "POST" ∧
    headerGet expectedCallC1.headers "Authorization" = some "abc" ∧
    headerGet expectedCallC1.headers "Content-Type" = some "application/json" ∧
    expectedCallC1.body = some (.str "\x7b\"name\":\"x\"\x7d") :=
  ⟨rfl, rfl, rfl, rfl, rfl, rfl⟩

/-- Splitting the middleware list splits the pipeline: the suffix runs on
the output of the prefix, and a prefix error short-circuits. -/
theorem applyMiddlewares_append (ms1 ms2 : List ApiMiddleware) (o : RequestOptions) :
    ApiClient.applyMiddlewares (ms1 ++ ms2) o =
      match ApiClient.applyMiddlewares ms1 o with
      | .ok mid => ApiClient.applyMiddlewares ms2 mid
      | .error e => .error e := by
  induction ms1 generalizing o with
  | nil => rfl
  | cons m rest ih =>
      simp only [List.cons_append, ApiClient.applyMiddlewares]
      cases m o with
      | error e => rfl
      | ok next => exact ih next

/-- C2: the middleware pipeline is a strict sequential left fold: an empty
list returns the input unchanged; a stage appended after a prefix receives
exactly the output of that prefix, not the original input; and a stage that
throws makes the whole pipeline fail with that error, the stages after it
never running. -/
theorem applyMiddlewares_sequential_fold :
    (∀ o, ApiClient.applyMiddlewares [] o = .ok o) ∧
    (∀ ms1 m o mid, ApiClient.applyMiddlewares ms1 o = .ok mid →
      ApiClient.applyMiddlewares (ms1 ++ [m]) o = m mid) ∧
    (∀ ms1 m ms2 o mid e, ApiClient.applyMiddlewares ms1 o = .ok mid →
      m mid = .error e →
      ApiClient.applyMiddlewares (ms1 ++ m :: ms2) o = .error e) := by
  refine ⟨fun _ => rfl, ?_, ?_⟩
  · intro ms1 m o mid h
    rw [applyMiddlewares_append, h]
    simp only [ApiClient.applyMiddlewares]
    cases m mid <;> rfl
  · intro ms1 m ms2 o mid e h hm
    rw [applyMiddlewares_append, h]
    simp only [ApiClient.applyMiddlewares, hm]

/-- A failing status never produces a value, whatever the body text. -/
theorem failureResult_not_value (status : Nat) (text : String) (v : JVal) :
    failureResult status text ≠ FetchResult.value v := by
  unfold failureResult
  split
  · split
    · exact fun h => FetchResult.noConfusion h
    · split
      · exact fun h => FetchResult.noConfusion h
      · exact fun h => FetchResult.noConfusion h
      · split
        · exact fun h => FetchResult.noConfusion h
        · exact fun h => FetchResult.noConfusion h
  · exact fun h => FetchResult.noConfusion h

/-- A blank (empty or whitespace-only) failure body gives the generic
status-coded message. -/
theorem failureResult_blank (status : Nat) (text : String)
    (h : jsTrim text = "") :
    failureResult status text = .errorMsg (httpErrorMsg status) := by
  unfold failureResult
  rw [h]
  simp

/-- A failure body that does not parse as JSON gives the generic message. -/
theorem failureResult_parse_failure (status : Nat) (text : String)
    (h : parseJson text = none) :
    failureResult status text = .errorMsg (httpErrorMsg status) := by
  unfold failureResult
  split
  · rw [h]
  · rfl

/-- A non-blank failure body parsing to an object decides the message by
the truthiness of its message field: truthy gives the field (string
converted), falsy or missing gives the generic message. -/
theorem failureResult_object (status : Nat) (text : String) (fs : JFields)
    (htrim : jsTrim text ≠ "") (h : parseJson text = some (.obj fs)) :
    failureResult status text =
      match lookupFieldLast fs "message" with
      | some v =>
          if jvalTruthy v then .errorMsg (jsToString v)
          else .errorMsg (httpErrorMsg status)
      | none => .errorMsg (httpErrorMsg status) := by
  have htext : text ≠ "" := by
    intro he
    exact htrim (by rw [he]; rfl)
  unfold failureResult
  rw [if_pos (by simp [htext, htrim]), h]
  simp only [readMessage]
  cases lookupFieldLast fs "message" <;> rfl

/-- With a response expected and a failing status, the dispatcher reads the
text once and raises what failureResult prescribes. -/
theorem handleResponse_failure (r : Response) (hfail : respOk r = false) :
    handleResponse true r = (failureResult r.status r.bodyText, [.text]) := by
  simp [handleResponse, hfail]

/-- C3 amended: a dispatch expecting a response whose status is a failure
never returns a value; a blank body or a JSON parse failure gives the
generic status-coded message; a body parsing to an object with a truthy
message field gives that field as the error message, while a falsy or
missing message field falls back to the generic message (the claim as
frozen promised the field value even when falsy, which the code does not
do, and it did not cover a body parsing to JSON null, where reading the
message property raises a host TypeError instead). -/
theorem failure_status_error_spec (r : Response) (hfail : respOk r = false) :
    (∀ v, (handleResponse true r).1 ≠ FetchResult.value v) ∧
    (handleResponse true r).2 = [.text] ∧
    (jsTrim r.bodyText = "" →
      (handleResponse true r).1 = .errorMsg (httpErrorMsg r.status)) ∧
    (parseJson r.bodyText = none →
      (handleResponse true r).1 = .errorMsg (httpErrorMsg r.status)) ∧
    (∀ fs v, jsTrim r.bodyText ≠ "" → parseJson r.bodyText = some (.obj fs) →
      lookupFieldLast fs "message" = some v → jvalTruthy v = true →
      (handleResponse true r).1 = .errorMsg (jsToString v)) ∧
    (∀ fs v, jsTrim r.bodyText ≠ "" → parseJson r.bodyText = some (.obj fs) →
      lookupFieldLast fs "message" = some v → jvalTruthy v = false →
      (handleResponse true r).1 = .errorMsg (httpErrorMsg r.status)) ∧
    (∀ fs, jsTrim r.bodyText ≠ "" → parseJson r.bodyText = some (.obj fs) →
      lookupFieldLast fs "message" = none →
      (handleResponse true r).1 = .errorMsg (httpErrorMsg r.status)) := by
  rw [handleResponse_failure r hfail]
  refine ⟨fun v => failureResult_not_value _ _ v, rfl, ?_, ?_, ?_, ?_, ?_⟩
  · exact fun h => failureResult_blank _ _ h
  · exact fun h => failureResult_parse_failure _ _ h
  · intro fs v htrim hp hl htr
    rw [failureResult_object r.status r.bodyText fs htrim hp, hl]
    simp [htr]
  · intro fs v htrim hp hl htr
    rw [failureResult_object r.status r.bodyText fs htrim hp, hl]
    simp [htr]
  · intro fs htrim hp hl
    rw [failureResult_object r.status r.bodyText fs htrim hp, hl]

/-- C3 witness: a 404 with body whose message field is the string boom
raises the error boom. -/
theorem failure_status_error_spec_witness :
    (handleResponse true ⟨404, none, "\x7b\"message\":\"boom\"\x7d"⟩).1 =
      .errorMsg "boom" := by
  have h := failure_status_error_spec ⟨404, none, "\x7b\"message\":\"boom\"\x7d"⟩ rfl
  exact h.2.2.2.2.1 (listToJFields [("message", .str "boom")]) (.str "boom")
    (by decide) rfl rfl rfl

/-- C3 counterexample: a 404 whose body parses as JSON and contains a
message field holding the empty string raises the generic status-coded
message, not that field value, because the code tests the field for
truthiness. -/
theorem failure_status_error_counterexample :
    parseJson "\x7b\"message\":\"\"\x7d" =
      some (JVal.jobj [("message", .str "")]) ∧
    (handleResponse true ⟨404, none, "\x7b\"message\":\"\"\x7d"⟩).1 =
      .errorMsg "HTTP error! status: 404" ∧
    FetchResult.errorMsg "HTTP error! status: 404" ≠ FetchResult.errorMsg "" :=
  ⟨rfl, rfl, fun h => absurd (FetchResult.errorMsg.inj h) (by decide)⟩

/-- C4 counterexample: a defined but falsy caller body (the boolean false)
is not attached for middleware and, with no middleware, no body is sent:
the prepared call has no body field even though the caller supplied one. -/
theorem body_encoding_counterexample :
    ({ method := some "POST", body := some (.bool false) } : RequestOptions).body.isSome
      = true ∧
    prepareRequest (ApiClient.create "https://api.test" none) "p"
        { method := some "POST", body := some (.bool false) } =
      .ok ({ url := "https://api.test/p"
             method := some "POST"
             headers := [("Content-Type", "application/json")]
             body := none
             extra := [] }, true) :=
  ⟨rfl, rfl⟩

/-- C4 amended: the final body is the post-middleware body put through the
encoder, so no body is sent exactly when the post-middleware body is
undefined; a string or FormData body passes through unmodified and every
other defined body is JSON-encoded. Before middleware, however, the caller
body is attached only when truthy: a defined falsy body (false, zero, the
empty string, null) is dropped rather than attached for middleware
visibility, which is what the frozen claim got wrong. -/
theorem body_encoding_spec :
    (∀ st opts, (assembleOptions st opts).body =
      (if jvalTruthyOpt opts.body then opts.body else none)) ∧
    (∀ st path cu ro, (finalizeRequest st path cu ro).1.body = ro.body.map encodeBody) ∧
    (∀ st path cu ro, ((finalizeRequest st path cu ro).1.body = none ↔ ro.body = none)) ∧
    (∀ s, encodeBody (.str s) = .str s) ∧
    (encodeBody .formData = .formData) ∧
    (∀ fs, encodeBody (.obj fs) = .str (jsonStringify (.obj fs))) ∧
    (∀ xs, encodeBody (.arr xs) = .str (jsonStringify (.arr xs))) ∧
    (∀ n, encodeBody (.num n) = .str (jsonStringify (.num n))) ∧
    (∀ b, encodeBody (.bool b) = .str (jsonStringify (.bool b))) := by
  refine ⟨?_, fun _ _ _ _ => rfl, ?_, fun _ => rfl, rfl, fun _ => rfl, fun _ => rfl,
    fun _ => rfl, fun _ => rfl⟩
  · intro st opts
    unfold assembleOptions
    by_cases hb : jvalTruthyOpt opts.body <;> simp [hb]
  · intro st path cu ro
    show ro.body.map encodeBody = none ↔ ro.body = none
    cases ro.body <;> simp

/-- C5 counterexample: middleware leaves the url field present but holding
the empty string; the or-chain skips it for being falsy and the resolved
URL is the caller one, not the present post-middleware field. -/
theorem url_resolution_counterexample :
    ({ url := some "" } : RequestOptions).url.isSome = true ∧
    (finalizeRequest (ApiClient.create "https://api.test" none) "p"
        (some "https://caller") { url := some "" }).1.url = "https://caller" ∧
    ("https://caller" : String) ≠ "" :=
  ⟨rfl, rfl, by decide⟩

/-- C5 amended: the effective URL is resolved by truthiness, not presence:
a non-empty post-middleware url wins, else a non-empty pre-middleware url,
else the built URL from base, path, post-middleware params and query. In
particular a caller URL survives middleware removing the field, and a URL
set by middleware wins when the caller supplied none; but an empty-string
url field is treated as absent. -/
theorem url_resolution_spec (st : ApiClient) (path : String) (cu : Option String)
    (ro : RequestOptions) :
    (strTruthyOpt ro.url = true →
      (finalizeRequest st path cu ro).1.url = ro.url.getD "") ∧
    (strTruthyOpt ro.url = false → strTruthyOpt cu = true →
      (finalizeRequest st path cu ro).1.url = cu.getD "") ∧
    (strTruthyOpt ro.url = false → strTruthyOpt cu = false →
      (finalizeRequest st path cu ro).1.url =
        ApiClient.buildUrl st path (ro.params.getD []) (ro.query.getD [])) ∧
    (ro.url = none → strTruthyOpt cu = true →
      (finalizeRequest st path cu ro).1.url = cu.getD "") ∧
    (cu = none → strTruthyOpt ro.url = true →
      (finalizeRequest st path cu ro).1.url = ro.url.getD "") := by
  refine ⟨?_, ?_, ?_, ?_, ?_⟩
  · intro h; simp [finalizeRequest, h]
  · intro h hc; simp [finalizeRequest, h, hc]
  · intro h hc; simp [finalizeRequest, h, hc]
  · intro h hc
    have : strTruthyOpt ro.url = false := by rw [h]; rfl
    simp [finalizeRequest, this, hc]
  · intro h hro; simp [finalizeRequest, hro]

/-- C6: with no response expected, a failing status raises the generic
error carrying the status code and a passing status returns null; in both
cases no body-reading operation is performed. -/
theorem no_response_spec (r : Response) :
    (respOk r = false →
      handleResponse false r = (.errorMsg (httpErrorMsg r.status), [])) ∧
    (respOk r = true → handleResponse false r = (.value .null, [])) := by
  constructor
  · intro h; simp [handleResponse, h]
  · intro h; simp [handleResponse, h]

/-- C7 counterexample: an array query value whose element is itself an
array: default string conversion of the element would give 1,2 but the
code emits its JSON text, since serializeQueryParam JSON-stringifies every
truthy value of object type, arrays included. -/
theorem array_query_counterexample :
    queryPairs [("k", JVal.jarr [JVal.jarr [.num 1, .num 2]])] = [("k[]", "[1,2]")] ∧
    jsToString (JVal.jarr [.num 1, .num 2]) = "1,2" ∧
    ("[1,2]" : String) ≠ "1,2" :=
  ⟨rfl, rfl, by decide⟩

/-- C7 amended: an array query value expands to one bracketed pair per
element in element order, each element put through serializeQueryParam,
which JSON-stringifies every truthy element of object type (plain objects
and also arrays) and applies default string conversion to everything else
(strings, numbers, booleans, null). -/
theorem array_query_spec :
    (∀ key items rest, queryPairs ((key, .arr items) :: rest) =
      arrayQueryPairs key items ++ queryPairs rest) ∧
    (∀ key item items, arrayQueryPairs key (.cons item items) =
      ((ApiClient.serializeQueryParam key item).1 ++ "[]",
        (ApiClient.serializeQueryParam key item).2) :: arrayQueryPairs key items) ∧
    (∀ key, arrayQueryPairs key .nil = []) ∧
    (∀ key fs, ApiClient.serializeQueryParam key (.obj fs) =
      (key, jsonStringify (.obj fs))) ∧
    (∀ key items, ApiClient.serializeQueryParam key (.arr items) =
      (key, jsonStringify (.arr items))) ∧
    (∀ key s, ApiClient.serializeQueryParam key (.str s) = (key, s)) ∧
    (∀ key n, ApiClient.serializeQueryParam key (.num n) = (key, toString n)) ∧
    (∀ key b, ApiClient.serializeQueryParam key (.bool b) =
      (key, cond b "true" "false")) ∧
    (∀ key, ApiClient.serializeQueryParam key .null = (key, "null")) := by
  refine ⟨fun _ _ _ => rfl, fun _ _ _ => rfl, fun _ => rfl, fun _ _ => rfl,
    fun _ _ => rfl, ?_, ?_, ?_, fun _ => rfl⟩
  · intro key s
    simp [ApiClient.serializeQueryParam, jvalTruthy, jvalTypeofObject, jsToString]
  · intro key n
    simp [ApiClient.serializeQueryParam, jvalTruthy, jvalTypeofObject, jsToString]
  · intro key b
    simp [ApiClient.serializeQueryParam, jvalTruthy, jvalTypeofObject, jsToString]

/-- The claim predicate of C8: the string ends with exactly one separator
(its last character is a slash and the one before, when there is one, is
not). -/
def endsWithSingleSlash (s : String) : Bool :=
  match s.data.reverse with
  | [] => false
  | [d] => d == '/'
  | d :: e :: _ => d == '/' && e != '/'

/-- C8 counterexample: a base URL already ending in two slashes is stored
unchanged by the constructor, so the stored base does not end with exactly
one trailing separator. -/
theorem baseUrl_trailing_counterexample :
    (ApiClient.create "https://api.test//" none).baseUrl = "https://api.test//" ∧
    endsWithSingleSlash (ApiClient.create "https://api.test//" none).baseUrl = false :=
  ⟨rfl, rfl⟩

/-- The data of an appended string is the appended data. -/
theorem strData_append (a b : String) : (a ++ b).data = a.data ++ b.data := rfl

/-- Normalisation always leaves a slash as the last character (though not
necessarily exactly one). -/
theorem lastCharIs_normalize (b : String) :
    lastCharIs (normalizeBaseUrl b) '/' = true := by
  unfold normalizeBaseUrl
  by_cases h : lastCharIs b '/'
  · simp [h]
  · simp only [h, if_false, Bool.false_eq_true]
    unfold lastCharIs
    rw [strData_append]
    simp

/-- C8 amended: after construction and after every setBaseUrl the stored
base URL ends with at least one trailing separator (the constructor appends
one when missing and keeps the string unchanged when one is already there,
so a base handed in with several trailing slashes keeps them all); setToken
and use never touch the base URL. -/
theorem baseUrl_normalized_spec (b : String) (t : Option String) (st : ApiClient)
    (m : ApiMiddleware) (tk : String) :
    lastCharIs (ApiClient.create b t).baseUrl '/' = true ∧
    lastCharIs (ApiClient.setBaseUrl st b).baseUrl '/' = true ∧
    (ApiClient.setToken st tk).baseUrl = st.baseUrl ∧
    (ApiClient.use st m).baseUrl = st.baseUrl ∧
    (ApiClient.create b t).baseUrl = normalizeBaseUrl b ∧
    (lastCharIs b '/' = true → normalizeBaseUrl b = b) := by
  refine ⟨lastCharIs_normalize b, lastCharIs_normalize b, rfl, rfl, rfl, ?_⟩
  intro h
  simp [normalizeBaseUrl, h]

/-- The live loop runs exactly the effective middleware sequence through
the ordinary sequential pipeline; stated with an explicit bound on the
loop measure for the induction. -/
theorem runLive_eq_aux :
    ∀ (n : Nat) (arr : List ApiMiddleware) (sched : List (List ApiMiddleware))
      (o : RequestOptions),
      arr.length + (sched.map List.length).sum ≤ n →
      runLiveMiddlewares arr sched o =
        ApiClient.applyMiddlewares (effectiveMiddlewares arr sched) o := by
  intro n
  induction n with
  | zero =>
      intro arr sched o h
      cases arr with
      | nil =>
          rw [runLiveMiddlewares.eq_def, effectiveMiddlewares.eq_def]
          rfl
      | cons m rest => simp at h
  | succ n ih =>
      intro arr sched o h
      cases arr with
      | nil =>
          rw [runLiveMiddlewares.eq_def, effectiveMiddlewares.eq_def]
          rfl
      | cons m rest =>
          rw [runLiveMiddlewares.eq_def, effectiveMiddlewares.eq_def]
          simp only [ApiClient.applyMiddlewares]
          cases m o with
          | error e => rfl
          | ok next =>
              apply ih
              cases sched with
              | nil => simp at h ⊢; omega
              | cons s ss => simp [List.length_append] at h ⊢; omega

/-- The live loop runs exactly the effective middleware sequence through
the ordinary sequential pipeline. -/
theorem runLive_eq_applyMiddlewares (arr : List ApiMiddleware)
    (sched : List (List ApiMiddleware)) (o : RequestOptions) :
    runLiveMiddlewares arr sched o =
      ApiClient.applyMiddlewares (effectiveMiddlewares arr sched) o :=
  runLive_eq_aux (arr.length + (sched.map List.length).sum) arr sched o
    (Nat.le_refl _)

/-- With no concurrent appends the effective sequence is the registered
list itself. -/
theorem effectiveMiddlewares_nil :
    ∀ (n : Nat) (arr : List ApiMiddleware), arr.length ≤ n →
      effectiveMiddlewares arr [] = arr := by
  intro n
  induction n with
  | zero =>
      intro arr h
      have : arr = [] := List.eq_nil_of_length_eq_zero (Nat.le_zero.mp h)
      rw [this, effectiveMiddlewares]
  | succ n ih =>
      intro arr h
      cases arr with
      | nil => rw [effectiveMiddlewares]
      | cons m rest =>
          rw [effectiveMiddlewares]
          simp only [List.headD, List.tail, List.append_nil]
          rw [ih rest (Nat.le_of_succ_le_succ h)]

/-- A middleware tagging the options by appending a marker to the params
list, used to observe which middlewares a dispatch executed. -/
def tagMiddleware (t : String) : ApiMiddleware :=
  fun o => .ok { o with params := some (o.params.getD [] ++ [t]) }

/-- The params of a pipeline result, for observing executed middlewares. -/
def exceptParams (r : Except String RequestOptions) : Option (List String) :=
  match r with
  | .ok o => o.params
  | .error _ => none

/-- C9 counterexample: one middleware is registered at dispatch start and a
second is registered through use during the await of the first stage. The
live for-of loop of the code reaches and runs the appended middleware in
the same dispatch (both tags appear), whereas a snapshot taken at dispatch
start would have run only the first. -/
theorem middleware_snapshot_counterexample :
    exceptParams (runLiveMiddlewares [tagMiddleware "m1"] [[tagMiddleware "m2"]] {}) =
      some ["m1", "m2"] ∧
    exceptParams (ApiClient.applyMiddlewares [tagMiddleware "m1"] {}) = some ["m1"] ∧
    (some ["m1", "m2"] : Option (List String)) ≠ some ["m1"] := by
  refine ⟨?_, rfl, by decide⟩
  rw [runLive_eq_applyMiddlewares]
  rw [effectiveMiddlewares]
  simp only [List.headD, List.tail, List.nil_append]
  rw [effectiveMiddlewares]
  simp only [List.headD, List.tail, List.nil_append]
  rw [effectiveMiddlewares]
  rfl

/-- C9 amended: the middleware loop iterates the live list, not a snapshot:
the dispatch executes the registered-at-start array interleaved with every
middleware appended through use during an await at a position the iterator
has not yet passed (the effective sequence); only when nothing is appended
mid-dispatch does the dispatch execute exactly the list registered at its
start. use itself appends at the end of the list. -/
theorem middleware_live_iteration_spec :
    (∀ arr sched o, runLiveMiddlewares arr sched o =
      ApiClient.applyMiddlewares (effectiveMiddlewares arr sched) o) ∧
    (∀ arr o, runLiveMiddlewares arr [] o = ApiClient.applyMiddlewares arr o) ∧
    (∀ st m, (ApiClient.use st m).middlewares = st.middlewares ++ [m]) ∧
    (∀ m rest sched, effectiveMiddlewares (m :: rest) sched =
      m :: effectiveMiddlewares (rest ++ sched.headD []) sched.tail) := by
  refine ⟨runLive_eq_applyMiddlewares, ?_, fun _ _ => rfl, ?_⟩
  · intro arr o
    rw [runLive_eq_applyMiddlewares,
      effectiveMiddlewares_nil arr.length arr (Nat.le_refl _)]
  · intro m rest sched
    rw [effectiveMiddlewares]

/-- C10: a nested (plain object) query value expands to one bracketed pair
per nested field in order, skipping null and undefined nested values, and
every emitted nested value is rendered with default string conversion,
never JSON-stringified: a nested object renders as the object Object tag
whatever its fields, a nested boolean as true or false, a nested number as
its decimal text. -/
theorem nested_query_string_conversion_spec :
    (∀ key fs rest, queryPairs ((key, .obj fs) :: rest) =
      nestedQueryPairs key fs ++ queryPairs rest) ∧
    (∀ key nk gs rest2, nestedQueryPairs key (.cons nk (.obj gs) rest2) =
      (key ++ "[" ++ nk ++ "]", "[object Object]") :: nestedQueryPairs key rest2) ∧
    (∀ key nk b rest2, nestedQueryPairs key (.cons nk (.bool b) rest2) =
      (key ++ "[" ++ nk ++ "]", cond b "true" "false") :: nestedQueryPairs key rest2) ∧
    (∀ key nk n rest2, nestedQueryPairs key (.cons nk (.num n) rest2) =
      (key ++ "[" ++ nk ++ "]", toString n) :: nestedQueryPairs key rest2) ∧
    (∀ key nk rest2, nestedQueryPairs key (.cons nk .null rest2) =
      nestedQueryPairs key rest2) ∧
    (∀ key nk rest2, nestedQueryPairs key (.cons nk .undef rest2) =
      nestedQueryPairs key rest2) ∧
    (∀ key nk v rest2, nestedQueryPairs key (.cons nk v rest2) =
        nestedQueryPairs key rest2 ∨
      nestedQueryPairs key (.cons nk v rest2) =
        (key ++ "[" ++ nk ++ "]", jsToString v) :: nestedQueryPairs key rest2) := by
  refine ⟨fun _ _ _ => rfl, fun _ _ _ _ => rfl, fun _ _ _ _ => rfl,
    fun _ _ _ _ => rfl, fun _ _ _ => rfl, fun _ _ _ => rfl, ?_⟩
  intro key nk v rest2
  cases v with
  | null => exact Or.inl rfl
  | undef => exact Or.inl rfl
  | bool b => exact Or.inr rfl
  | num n => exact Or.inr rfl
  | str s => exact Or.inr rfl
  | arr xs => exact Or.inr rfl
  | obj gs => exact Or.inr rfl
  | formData => exact Or.inr rfl
  | blob => exact Or.inr rfl
